import Mathlib

/-!
Verification development for the OpenAI → NVIDIA NIM proxy (`server.js`).

The core of the program is the streaming response rewriter: it consumes a
newline-delimited event stream, reconstitutes lines split across delivery
chunks, and splices the `reasoning_content` field of each frame's delta into
the `content` field between `<think>` markers, driven by a single boolean
`thinkOpen`.

The embedding below models JavaScript strings as `List Char` (sequences of
code units), JSON string-or-null-or-absent fields as the inductive `JStr`,
and the pieces of the pipeline as executable functions mirroring the source:
`splitNl` (the `buffer.split('\n')` framer), `trimChars` (`line.trim()`),
`onLine` (the body of the `for (const line of lines)` loop),
`onChunk` (the `'data'` event handler), `spliceShow` / `spliceHide`
(the SHOW_REASONING branches), `nonStreamMessage` (the non-streaming
choice mapping), `runRes` (the response/error emission discipline) and
`nimRequestBody` (the upstream request defaulting).

`JSON.parse` is an external library call; it is modelled as an abstract
`parse : List Char → Option Frame` parameter.  Frame-level passthrough
fields other than `choices[0].delta` (ids, timestamps, finish_reason) are
not modelled; no claim depends on them.
-/

/-- A JSON field that can be absent, explicitly `null`, or a string.
Mirrors the three states distinguished by `delta.content ?? null` and
`contentChunk === ''` in the source. -/
inductive JStr where
  | absent : JStr
  | nullv : JStr
  | str (s : List Char) : JStr
deriving Repr, DecidableEq

/-- Nullish coalescing `x ?? null` : collapse absent/null to `none`, keep
strings. -/
def jstrToOpt : JStr → Option (List Char)
  | .str s => some s
  | _ => none

/-- The `choices[0].delta` object : the two fields the rewriter reads and
writes. -/
structure Delta where
  reasoning_content : JStr
  content : JStr
deriving Repr, DecidableEq

/-- One decoded data-record frame; only `choices?.[0]?.delta` is relevant
to the rewriter (`none` models a missing/empty choices array or delta). -/
structure Frame where
  delta : Option Delta
deriving Repr, DecidableEq

/-- One record written to the client: either raw bytes (`res.write` of a
passthrough line or of the literal terminator) or a re-serialized frame. -/
inductive OutRec where
  | raw (cs : List Char) : OutRec
  | dataRec (f : Frame) : OutRec
deriving Repr, DecidableEq

/-- The opening marker injected before reasoning text: `'<think>\n'`. -/
def markerOpen : List Char := "<think>\n".data

/-- The closing marker as synthesized at the terminator: `'</think>\n\n'`.
The mid-stream closing injection is `'\n'` followed by this token. -/
def markerClose : List Char := "</think>\n\n".data

/-- Function `buildDeltaChunk` (server.js:273-281): a minimal injected chunk whose
only delta field is `content` (ids/timestamps are outside the model). -/
def buildDeltaChunk (content : List Char) : Frame :=
  { delta := some { reasoning_content := .absent, content := .str content } }

/-- The inject string and final `thinkOpen` built by the SHOW_REASONING
branch (server.js:183-200), from the current state and the values
`reasoningChunk`/`contentChunk` (`none` = JS `null`). -/
def injectBuild (thinkOpen : Bool) (rc cc : Option (List Char)) :
    List Char × Bool :=
  let st1 : List Char × Bool :=
    match rc with
    | some r =>
      if r ≠ [] then
        if thinkOpen then (r, true) else (markerOpen ++ r, true)
      else ([], thinkOpen)
    | none => ([], thinkOpen)
  match cc with
  | some c =>
    if c ≠ [] then
      if st1.2 then (st1.1 ++ "\n</think>\n\n".data ++ c, false)
      else (st1.1 ++ c, st1.2)
    else st1
  | none => st1

/-- The SHOW_REASONING=true processing of one delta (server.js:177-204):
read the chunks, delete `reasoning_content`, build `inject`, then
`delta.content = inject || (contentChunk === '' ? '' : null)` with a final
`delete` of a null content. -/
def spliceShow (thinkOpen : Bool) (d : Delta) : Bool × Delta :=
  let rc := jstrToOpt d.reasoning_content
  let cc := jstrToOpt d.content
  let ib := injectBuild thinkOpen rc cc
  let newContent : JStr :=
    if ib.1 ≠ [] then .str ib.1
    else if cc = some [] then .str []
    else .absent
  (ib.2, { reasoning_content := .absent, content := newContent })

/-- The SHOW_REASONING=false processing of one delta (server.js:205-209):
drop reasoning, pass content through, substituting `''` for null/absent. -/
def spliceHide (d : Delta) : Delta :=
  { reasoning_content := .absent,
    content := .str ((jstrToOpt d.content).getD []) }

/-- Processing of one successfully parsed frame (server.js:174-211):
frames without a delta pass through unmodified; otherwise the delta is
spliced according to the SHOW_REASONING toggle. -/
def onFrame (showR thinkOpen : Bool) (f : Frame) : Bool × OutRec :=
  match f.delta with
  | none => (thinkOpen, .dataRec f)
  | some d =>
    if showR then
      let r := spliceShow thinkOpen d
      (r.1, .dataRec { delta := some r.2 })
    else
      (thinkOpen, .dataRec { delta := some (spliceHide d) })

/-- The `line.trim()` call : strip leading and trailing whitespace (the
JS whitespace class restricted to ASCII whitespace). -/
def trimChars (cs : List Char) : List Char :=
  ((cs.dropWhile Char.isWhitespace).reverse.dropWhile Char.isWhitespace).reverse

/-- The terminator line `'data: [DONE]'`. -/
def doneLine : List Char := "data: [DONE]".data

/-- The data-record tag `'data: '` (6 characters, stripped by `slice(6)`). -/
def dataTag : List Char := "data: ".data

/-- The literal terminator record written out: `'data: [DONE]\n\n'`. -/
def rawDone : List Char := "data: [DONE]\n\n".data

/-- The body of the per-line loop (server.js:152-216): classify the line as
blank / terminator / opaque passthrough / data record, splice data records,
and synthesize a closing record at the terminator if the span is open. -/
def onLine (showR : Bool) (parse : List Char → Option Frame)
    (thinkOpen : Bool) (line : List Char) : Bool × List OutRec :=
  let trimmed := trimChars line
  if trimmed = [] then (thinkOpen, [])
  else if trimmed = doneLine then
    if thinkOpen && showR then
      (false, [.dataRec (buildDeltaChunk markerClose), .raw rawDone])
    else (thinkOpen, [.raw rawDone])
  else if ¬ dataTag.isPrefixOf trimmed then
    (thinkOpen, [.raw (trimmed ++ ['\n'])])
  else
    match parse (trimmed.drop 6) with
    | none => (thinkOpen, [.raw (trimmed ++ ['\n'])])
    | some f =>
      let r := onFrame showR thinkOpen f
      (r.1, [r.2])

/-- Fold `onLine` over a list of complete lines, threading `thinkOpen`. -/
def runLines (showR : Bool) (parse : List Char → Option Frame) :
    Bool → List (List Char) → Bool × List OutRec
  | o, [] => (o, [])
  | o, l :: ls =>
    let s := onLine showR parse o l
    let r := runLines showR parse s.1 ls
    (r.1, s.2 ++ r.2)

/-- Fold `onFrame` over a list of decoded frames, threading `thinkOpen`. -/
def runFrames (showR : Bool) : Bool → List Frame → Bool × List OutRec
  | o, [] => (o, [])
  | o, f :: fs =>
    let s := onFrame showR o f
    let r := runFrames showR s.1 fs
    (r.1, s.2 :: r.2)

/-- The `s.split` call on the newline character; always returns at
least one (possibly empty) segment, with no newline inside any segment. -/
def splitNl : List Char → List (List Char)
  | [] => [[]]
  | c :: cs =>
    if c = '\n' then [] :: splitNl cs
    else
      match splitNl cs with
      | [] => [[c]]
      | l :: ls => (c :: l) :: ls

/-- The rewriter's per-stream mutable state: the accumulation `buffer` and
the `thinkOpen` flag (server.js:144-145). -/
structure RwState where
  buffer : List Char
  thinkOpen : Bool
deriving Repr, DecidableEq

/-- The data event handler body after the chunk has been decoded to
characters (server.js:148-151): append to the buffer, split on newline,
keep the trailing partial segment, process every complete line.  The
per-chunk `toString()` decode of server.js:148 is modelled separately by
`onByteChunk` below. -/
def onChunk (showR : Bool) (parse : List Char → Option Frame)
    (st : RwState) (chunk : List Char) : RwState × List OutRec :=
  let parts := splitNl (st.buffer ++ chunk)
  let r := runLines showR parse st.thinkOpen parts.dropLast
  ({ buffer := parts.getLastD [], thinkOpen := r.1 }, r.2)

/-- Initial rewriter state: empty buffer, span closed. -/
def initState : RwState := { buffer := [], thinkOpen := false }

/-- Fold `onChunk` over the delivered chunks. -/
def runChunks (showR : Bool) (parse : List Char → Option Frame) :
    RwState → List (List Char) → RwState × List OutRec
  | st, [] => (st, [])
  | st, c :: cs =>
    let s := onChunk showR parse st c
    let r := runChunks showR parse s.1 cs
    (r.1, s.2 ++ r.2)

/-- Classification of one byte arriving with no sequence pending, per the
WHATWG UTF-8 decoder (the semantics of V8's `Buffer#toString('utf8')`):
ASCII emits its character; a valid lead byte opens a pending sequence of
(code-point bits, continuation bytes needed, allowed range of the next
byte); anything else emits one U+FFFD replacement character. -/
def utf8Step (b : Nat) : List Char × Option (Nat × Nat × Nat × Nat) :=
  if b ≤ 0x7F then ([Char.ofNat b], none)
  else if 0xC2 ≤ b && b ≤ 0xDF then ([], some (b - 0xC0, 1, 0x80, 0xBF))
  else if b == 0xE0 then ([], some (0, 2, 0xA0, 0xBF))
  else if b == 0xED then ([], some (0xD, 2, 0x80, 0x9F))
  else if 0xE0 ≤ b && b ≤ 0xEF then ([], some (b - 0xE0, 2, 0x80, 0xBF))
  else if b == 0xF0 then ([], some (0, 3, 0x90, 0xBF))
  else if b == 0xF4 then ([], some (4, 3, 0x80, 0x8F))
  else if 0xF0 ≤ b && b ≤ 0xF4 then ([], some (b - 0xF0, 3, 0x80, 0xBF))
  else (['\uFFFD'], none)

/-- The WHATWG UTF-8 decoder loop over one buffer: a pending sequence
consumes continuation bytes in its allowed range; a byte outside the
range emits one U+FFFD for the maximal subpart and is reprocessed as a
fresh byte; a sequence still pending at the end of the buffer emits one
U+FFFD (each `toString` call decodes its chunk independently, so a
multi-byte character split across chunks becomes replacement
characters). -/
def utf8Run : Option (Nat × Nat × Nat × Nat) → List Nat → List Char
  | none, [] => []
  | some _, [] => ['\uFFFD']
  | none, b :: rest =>
    let s := utf8Step b
    s.1 ++ utf8Run s.2 rest
  | some (cp, needed, lo, hi), b :: rest =>
    if lo ≤ b && b ≤ hi then
      let cp2 := cp * 64 + (b - 0x80)
      if needed = 1 then Char.ofNat cp2 :: utf8Run none rest
      else utf8Run (some (cp2, needed - 1, 0x80, 0xBF)) rest
    else
      '\uFFFD' :: (let s := utf8Step b; s.1 ++ utf8Run s.2 rest)

/-- One-buffer UTF-8 decoding with the WHATWG replacement policy, the
semantics of `chunk.toString()` (server.js:148) on a single Buffer. -/
def utf8Decode (bs : List Nat) : List Char := utf8Run none bs

/-- The full data event handler on one delivered byte chunk
(server.js:147-151): `buffer += chunk.toString()` decodes this chunk
alone, then the line processing runs. -/
def onByteChunk (showR : Bool) (parse : List Char → Option Frame)
    (st : RwState) (chunk : List Nat) : RwState × List OutRec :=
  onChunk showR parse st (utf8Decode chunk)

/-- Fold `onByteChunk` over the delivered byte chunks. -/
def runByteChunks (showR : Bool) (parse : List Char → Option Frame) :
    RwState → List (List Nat) → RwState × List OutRec
  | st, [] => (st, [])
  | st, c :: cs =>
    let s := onByteChunk showR parse st c
    let r := runByteChunks showR parse s.1 cs
    (r.1, s.2 ++ r.2)

/-- The sequence of `thinkOpen` states after each processed line. -/
def runTrace (showR : Bool) (parse : List Char → Option Frame) :
    Bool → List (List Char) → List Bool
  | _, [] => []
  | o, l :: ls =>
    let o1 := (onLine showR parse o l).1
    o1 :: runTrace showR parse o1 ls

/-- The state at the end of a trace (the start state if no line arrived). -/
def endState (o : Bool) (tr : List Bool) : Bool := tr.getLastD o

/-- The number of closed→open transitions along a state trace: each one is
an emission of the opening marker by the splicer. -/
def countFT : Bool → List Bool → Nat
  | _, [] => 0
  | prev, b :: bs => (if prev = false ∧ b = true then 1 else 0) + countFT b bs

/-- The number of open→closed transitions along a state trace: each one is
an emission of the closing marker (mid-stream or synthesized). -/
def countTF : Bool → List Bool → Nat
  | _, [] => 0
  | prev, b :: bs => (if prev = true ∧ b = false then 1 else 0) + countTF b bs

/-- The content string carried by a frame (`''` when absent or null). -/
def frameContent (f : Frame) : List Char :=
  match f.delta with
  | some d => (jstrToOpt d.content).getD []
  | none => []

/-- The content string carried by an output record (raw records carry no
frame content). -/
def outContent : OutRec → List Char
  | .dataRec f => frameContent f
  | .raw _ => []

/-- Decides whether a frame carries no reasoning field. -/
def hasNoReasoning (f : Frame) : Bool :=
  match f.delta with
  | some d => d.reasoning_content == JStr.absent
  | none => true

/-- One upstream non-streaming message (`choice.message`), with the fields
the translation reads. -/
structure Msg where
  role : JStr
  content : JStr
  reasoning_content : JStr
deriving Repr, DecidableEq

/-- The message returned to the client in the non-streaming path: always a
concrete role string and a concrete content string. -/
structure OutMsg where
  role : List Char
  content : List Char
deriving Repr, DecidableEq

/-- JS truthiness of a string-or-null-or-absent value: truthy exactly when
it is a non-empty string. -/
def truthyStr : JStr → Option (List Char)
  | .str s => if s = [] then none else some s
  | _ => none

/-- The non-streaming per-choice translation (server.js:227-243):
`finalContent = msg.content ?? ''`, prepend the think block when
SHOW_REASONING and `msg.reasoning_content` is truthy, default the role. -/
def nonStreamMessage (showR : Bool) (msg : Msg) : OutMsg :=
  let base := (jstrToOpt msg.content).getD []
  let finalContent :=
    match (if showR then truthyStr msg.reasoning_content else none) with
    | some r => markerOpen ++ r ++ "\n</think>\n\n".data ++ base
    | none => base
  { role := (jstrToOpt msg.role).getD "assistant".data, content := finalContent }

/-- The JSON error body produced by the catch block (server.js:261-267). -/
structure ErrorBody where
  message : List Char
  errType : List Char
  code : Nat
deriving Repr, DecidableEq

/-- Events that drive the client-facing response object: streaming bytes
written by the rewriter, an error reaching the request try/catch, or an
`'error'` event on the upstream response stream. -/
inductive REvent where
  | writeBytes (cs : List Char) : REvent
  | requestError (status : Option Nat) (detail : List Char) : REvent
  | streamError (msg : List Char) : REvent
deriving Repr, DecidableEq

/-- What the proxy emits to the client: body bytes or a JSON error body. -/
inductive ROut where
  | bytes (cs : List Char) : ROut
  | jsonError (e : ErrorBody) : ROut
deriving Repr, DecidableEq

/-- Status defaulting `error.response?.status || 500` : any missing (or
zero) status becomes 500. -/
def statusOr500 : Option Nat → Nat
  | some s => if s = 0 then 500 else s
  | none => 500

/-- The catch block (server.js:255-269): emit a JSON error body only when
no response headers have been sent yet; sending it flushes the headers. -/
def catchHandler (headersSent : Bool) (status : Option Nat)
    (detail : List Char) : Bool × Option ErrorBody :=
  if headersSent then (headersSent, none)
  else (true, some { message := detail, errType := "proxy_error".data,
                     code := statusOr500 status })

/-- One step of the response discipline: `res.write` marks headers as sent;
a caught request error goes through `catchHandler`; an upstream stream
`'error'` event only logs and ends the response (server.js:220-223). -/
def stepRes (headersSent : Bool) : REvent → Bool × List ROut
  | .writeBytes cs => (true, [.bytes cs])
  | .requestError status detail =>
    let r := catchHandler headersSent status detail
    (r.1, match r.2 with | some e => [.jsonError e] | none => [])
  | .streamError _ => (headersSent, [])

/-- Fold the response discipline over a list of events. -/
def runRes : Bool → List REvent → Bool × List ROut
  | hs, [] => (hs, [])
  | hs, ev :: evs =>
    let s := stepRes hs ev
    let r := runRes s.1 evs
    (r.1, s.2 ++ r.2)

/-- A JSON number field: absent, null, or a numeric value (ℚ models the
JS number; NaN is outside the model). -/
inductive JNum where
  | absent : JNum
  | nullv : JNum
  | num (q : ℚ) : JNum
deriving Repr, DecidableEq

/-- A JSON boolean field: absent, null, or a boolean. -/
inductive JBool where
  | absent : JBool
  | nullv : JBool
  | jbool (b : Bool) : JBool
deriving Repr, DecidableEq

/-- The optional parameters destructured from the inbound request body
(server.js:90); `model`/`messages` are copied verbatim and are outside the
scope of the defaulting claim. -/
structure ChatRequest where
  temperature : JNum
  max_tokens : JNum
  stream : JBool
deriving Repr, DecidableEq

/-- The defaulted fields of the upstream request body. -/
structure NimBody where
  temperature : ℚ
  max_tokens : ℚ
  stream : Bool
deriving Repr, DecidableEq

/-- Request defaulting `nimRequestBody` (server.js:109-115): `temperature ?? 0.6` (nullish
coalescing), `max_tokens || 16384` (falsy test, so 0 is replaced), and
`stream || false`. -/
def nimRequestBody (r : ChatRequest) : NimBody :=
  { temperature :=
      match r.temperature with
      | .num q => q
      | _ => 3/5
    max_tokens :=
      match r.max_tokens with
      | .num q => if q = 0 then 16384 else q
      | _ => 16384
    stream :=
      match r.stream with
      | .jbool b => b
      | _ => false }

/-- A decode that fails on every payload (used to exercise the passthrough
branches at concrete inputs). -/
def parseNone : List Char → Option Frame := fun _ => none

/-- A concrete decode table realizing the spec's Scenario B/D payloads:
`frameA` is a reasoning-only frame, `frameB` a content-only frame. -/
def parseScen : List Char → Option Frame := fun cs =>
  if cs = "frameA".data then
    some { delta := some { reasoning_content := .str "Let me think".data,
                           content := .absent } }
  else if cs = "frameB".data then
    some { delta := some { reasoning_content := .absent,
                           content := .str "The answer is 4".data } }
  else none

/-- The Scenario B/D input lines: reasoning frame, content frame,
terminator. -/
def scenarioLines : List (List Char) :=
  ["data: frameA".data, "data: frameB".data, doneLine]

/-- A frame with no reasoning field whose content text happens to contain
the literal opening marker. -/
def markerContentFrame : Frame :=
  { delta := some { reasoning_content := .absent,
                    content := .str "<think>\nboom".data } }

/-! Shared helper lemmas -/

theorem getLastD_mem {α : Type} (l : List α) (d : α) (h : l ≠ []) :
    l.getLastD d ∈ l := by
  induction l with
  | nil => exact absurd rfl h
  | cons a t ih =>
    cases t with
    | nil => simp [List.getLastD]
    | cons b u => exact .tail _ (ih (by simp))

/-! Claim C10 -/

/-- C10: the upstream body's defaulting is asymmetric: `temperature` uses
nullish coalescing, so an explicit 0 is forwarded and only null/absent
becomes 0.6, while `max_tokens` uses a falsy test, so 0 (like null/absent)
is replaced by 16384; an absent `stream` becomes `false`. -/
theorem C10_defaulting_asymmetry :
    (∀ r : ChatRequest, ∀ q : ℚ, r.temperature = .num q →
      (nimRequestBody r).temperature = q) ∧
    (∀ r : ChatRequest, r.temperature = .nullv ∨ r.temperature = .absent →
      (nimRequestBody r).temperature = 3/5) ∧
    (∀ r : ChatRequest, r.max_tokens = .num 0 →
      (nimRequestBody r).max_tokens = 16384) ∧
    (∀ r : ChatRequest, r.max_tokens = .nullv ∨ r.max_tokens = .absent →
      (nimRequestBody r).max_tokens = 16384) ∧
    (∀ r : ChatRequest, ∀ q : ℚ, r.max_tokens = .num q → q ≠ 0 →
      (nimRequestBody r).max_tokens = q) ∧
    (∀ r : ChatRequest, r.stream = .absent → (nimRequestBody r).stream = false) := by
  refine ⟨?_, ?_, ?_, ?_, ?_, ?_⟩
  · intro r q h; simp [nimRequestBody, h]
  · intro r h; rcases h with h | h <;> simp [nimRequestBody, h]
  · intro r h; simp [nimRequestBody, h]
  · intro r h; rcases h with h | h <;> simp [nimRequestBody, h]
  · intro r q h hq; simp [nimRequestBody, h, hq]
  · intro r h; simp [nimRequestBody, h]

/-- C10 witness: a request with `temperature = 0`, `max_tokens = 0` and
absent `stream` is forwarded with temperature 0, max_tokens 16384 and
stream false. -/
theorem C10_defaulting_asymmetry_witness :
    (nimRequestBody { temperature := .num 0, max_tokens := .num 0,
                      stream := .absent }).temperature = 0 ∧
    (nimRequestBody { temperature := .num 0, max_tokens := .num 0,
                      stream := .absent }).max_tokens = 16384 ∧
    (nimRequestBody { temperature := .num 0, max_tokens := .num 0,
                      stream := .absent }).stream = false :=
  ⟨C10_defaulting_asymmetry.1 _ 0 rfl,
   C10_defaulting_asymmetry.2.2.1 _ rfl,
   C10_defaulting_asymmetry.2.2.2.2.2 _ rfl⟩

/-! Claim C2 -/

/-- C2: with reasoning display enabled, the outgoing delta's content is the
built `inject` string when non-empty; when `inject` is empty it is the
empty string exactly when the incoming content was explicitly the empty
string, and omitted when the incoming content was absent or null; it is
never emitted as null. -/
theorem C2_content_assignment (o : Bool) (d : Delta) :
    (spliceShow o d).2.content ≠ JStr.nullv ∧
    ((injectBuild o (jstrToOpt d.reasoning_content) (jstrToOpt d.content)).1 ≠ [] →
      (spliceShow o d).2.content =
        .str (injectBuild o (jstrToOpt d.reasoning_content) (jstrToOpt d.content)).1) ∧
    ((injectBuild o (jstrToOpt d.reasoning_content) (jstrToOpt d.content)).1 = [] →
      d.content = .str [] →
      (spliceShow o d).2.content = .str []) ∧
    ((injectBuild o (jstrToOpt d.reasoning_content) (jstrToOpt d.content)).1 = [] →
      jstrToOpt d.content = none →
      (spliceShow o d).2.content = .absent) := by
  refine ⟨?_, ?_, ?_, ?_⟩
  · simp only [spliceShow]
    split
    · simp
    · split <;> simp
  · intro h; simp [spliceShow, h]
  · intro h hc
    cases d with
    | mk rcf ccf =>
      simp only at hc
      subst hc
      simp only [spliceShow, jstrToOpt] at h ⊢
      simp [h]
  · intro h hc
    have : jstrToOpt d.content ≠ some [] := by simp [hc]
    simp [spliceShow, h, this]

/-- C2 witness: a frame whose delta has no reasoning and null content
yields an omitted content field. -/
theorem C2_content_assignment_witness :
    (spliceShow false { reasoning_content := .absent,
                        content := .nullv }).2.content = .absent :=
  (C2_content_assignment false _).2.2.2 (by decide) (by decide)

/-! Claim C8 -/

/-- C8 counterexample: for an upstream message with reasoning absent and
content explicitly null, the returned content is the empty string, i.e.
the content field value is changed (null becomes `''`), refuting
"otherwise the content is unchanged" as stated. -/
theorem C8_null_content_changed :
    (nonStreamMessage true { role := .absent, content := .nullv,
                             reasoning_content := .absent }).content = [] ∧
    ({ role := .absent, content := .nullv, reasoning_content := .absent } : Msg).content
      ≠ JStr.str [] := by
  constructor
  · decide
  · decide

/-- C8 amended: the returned non-streaming content equals opening marker +
reasoning + closing marker + content (with `''` substituted for a
null/absent content) when display is enabled and reasoning is a non-empty
string; otherwise it equals the incoming content when that is a string,
and `''` when the incoming content is null or absent. -/
theorem C8_nonstreaming_splice (showR : Bool) (msg : Msg) :
    (∀ r, showR = true → truthyStr msg.reasoning_content = some r →
      (nonStreamMessage showR msg).content =
        markerOpen ++ r ++ ('\n' :: markerClose) ++ ((jstrToOpt msg.content).getD [])) ∧
    ((showR = false ∨ truthyStr msg.reasoning_content = none) →
      (nonStreamMessage showR msg).content = (jstrToOpt msg.content).getD []) ∧
    (∀ c, msg.content = .str c →
      (showR = false ∨ truthyStr msg.reasoning_content = none) →
      (nonStreamMessage showR msg).content = c) := by
  have hmm : "\n</think>\n\n".data = '\n' :: markerClose := by decide
  refine ⟨?_, ?_, ?_⟩
  · intro r hs hr
    subst hs
    simp [nonStreamMessage, hr, hmm, markerOpen, markerClose]
  · intro h
    rcases h with h | h
    · subst h; simp [nonStreamMessage]
    · cases showR <;> simp [nonStreamMessage, h]
  · intro c hc h
    rcases h with h | h
    · subst h; simp [nonStreamMessage, hc, jstrToOpt]
    · cases showR <;> simp [nonStreamMessage, h, hc, jstrToOpt]

/-- C8 witness: with display enabled, reasoning `'hm'` and content `'ok'`
splice to `'<think>\nhm\n</think>\n\nok'`; with reasoning absent, a string
content `'ok'` is returned unchanged. -/
theorem C8_nonstreaming_splice_witness :
    (nonStreamMessage true { role := .absent, content := .str "ok".data,
                             reasoning_content := .str "hm".data }).content =
      markerOpen ++ "hm".data ++ ('\n' :: markerClose) ++ "ok".data ∧
    (nonStreamMessage true { role := .absent, content := .str "ok".data,
                             reasoning_content := .absent }).content = "ok".data :=
  ⟨by
    have h := (C8_nonstreaming_splice true
      { role := .absent, content := .str "ok".data,
        reasoning_content := .str "hm".data }).1 "hm".data rfl (by decide)
    simpa using h,
   (C8_nonstreaming_splice true
      { role := .absent, content := .str "ok".data,
        reasoning_content := .absent }).2.2 "ok".data rfl (Or.inr (by decide))⟩

/-! Claim C9 -/

theorem runRes_append (hs : Bool) (a b : List REvent) :
    runRes hs (a ++ b) =
      ((runRes (runRes hs a).1 b).1,
       (runRes hs a).2 ++ (runRes (runRes hs a).1 b).2) := by
  induction a generalizing hs with
  | nil => simp [runRes]
  | cons ev evs ih => simp [runRes, ih]

theorem runRes_headersSent_no_json (evs : List REvent) :
    ∀ e, ROut.jsonError e ∉ (runRes true evs).2 := by
  induction evs with
  | nil => simp [runRes]
  | cons ev rest ih =>
    intro e
    cases ev <;> simp [runRes, stepRes, catchHandler] <;> exact ih e

/-- C9 counterexample: an `'error'` event on the upstream response stream,
arriving before any byte has been written to the client, produces no output
at all — in particular no JSON error body — refuting "an error occurring
before any response byte is sent is returned as a JSON error object". -/
theorem C9_stream_error_no_json_body :
    runRes false [REvent.streamError "socket hang up".data] = (false, []) := by
  decide

/-- C9 amended: once any byte has been written, no JSON error body is ever
emitted afterwards (the catch handler is guarded by `headersSent` and the
stream-error handler emits nothing); an error reaching the request
try/catch before any byte is sent is returned as a JSON error object with
the proxy_error shape and the upstream status (500 when unknown). -/
theorem C9_error_discipline :
    (∀ (evs1 : List REvent) (cs : List Char) (evs2 : List REvent),
      (runRes false (evs1 ++ REvent.writeBytes cs :: evs2)).2 =
        (runRes false evs1).2 ++ ROut.bytes cs :: (runRes true evs2).2 ∧
      ∀ e, ROut.jsonError e ∉ (runRes true evs2).2) ∧
    (∀ (status : Option Nat) (detail : List Char),
      runRes false [REvent.requestError status detail] =
        (true, [ROut.jsonError { message := detail,
                                 errType := "proxy_error".data,
                                 code := statusOr500 status }])) := by
  constructor
  · intro evs1 cs evs2
    constructor
    · rw [runRes_append]
      simp [runRes, stepRes]
    · exact runRes_headersSent_no_json evs2
  · intro status detail
    simp [runRes, stepRes, catchHandler]

/-! Claim C6 -/

theorem onFrame_reasoning_absent (showR o : Bool) (f g : Frame) (d : Delta)
    (hg : (onFrame showR o f).2 = OutRec.dataRec g) (hd : g.delta = some d) :
    d.reasoning_content = .absent := by
  cases hf : f.delta with
  | none =>
    simp [onFrame, hf] at hg
    subst hg
    rw [hf] at hd
    exact absurd hd (by simp)
  | some dd =>
    cases showR with
    | true =>
      simp [onFrame, hf] at hg
      rw [← hg] at hd
      simp at hd
      rw [← hd]
      simp [spliceShow]
    | false =>
      simp [onFrame, hf] at hg
      rw [← hg] at hd
      simp at hd
      rw [← hd]
      simp [spliceHide]

/-- C6: every frame emitted as a data record has the reasoning field
removed from its delta — `delete delta.reasoning_content` runs before
re-serialization in every branch, the synthesized closing chunk never has
one, and a frame without a delta cannot carry one. -/
theorem C6_no_reasoning_in_output (showR : Bool)
    (parse : List Char → Option Frame) (o : Bool) (line : List Char)
    (f : Frame) (d : Delta)
    (hmem : OutRec.dataRec f ∈ (onLine showR parse o line).2)
    (hd : f.delta = some d) :
    d.reasoning_content = .absent := by
  by_cases h1 : trimChars line = []
  · simp [onLine, h1] at hmem
  by_cases h2 : trimChars line = doneLine
  · have hne : (doneLine : List Char) ≠ [] := by decide
    by_cases h3 : (o && showR) = true
    · simp [onLine, h1, h2, h3, hne] at hmem
      subst hmem
      simp [buildDeltaChunk] at hd
      rw [← hd]
    · simp [onLine, h1, h2, h3, hne] at hmem
  by_cases h4 : dataTag.isPrefixOf (trimChars line)
  · cases hp : parse ((trimChars line).drop 6) with
    | none => simp [onLine, h1, h2, h4, hp] at hmem
    | some fr =>
      simp [onLine, h1, h2, h4, hp] at hmem
      exact onFrame_reasoning_absent showR o fr f d hmem.symm hd
  · simp [onLine, h1, h2, h4] at hmem

/-- C6 witness: a parsed frame carrying both reasoning and content is
emitted with its reasoning field absent. -/
theorem C6_no_reasoning_in_output_witness :
    ({ reasoning_content := .absent,
       content := .str ("<think>\nr\n</think>\n\nc".data) } : Delta).reasoning_content
      = .absent :=
  C6_no_reasoning_in_output true
    (fun cs => if cs = "p".data then
        some { delta := some { reasoning_content := .str "r".data,
                               content := .str "c".data } }
      else none)
    false "data: p".data
    { delta := some { reasoning_content := .absent,
                      content := .str ("<think>\nr\n</think>\n\nc".data) } }
    _ (by decide) rfl

/-! Claim C7 -/

theorem onLine_false_state (parse : List Char → Option Frame) (o : Bool)
    (line : List Char) : (onLine false parse o line).1 = o := by
  by_cases h1 : trimChars line = []
  · simp [onLine, h1]
  by_cases h2 : trimChars line = doneLine
  · have hne : (doneLine : List Char) ≠ [] := by decide
    simp [onLine, h1, h2, hne]
  by_cases h4 : dataTag.isPrefixOf (trimChars line)
  · cases hp : parse ((trimChars line).drop 6) with
    | none => simp [onLine, h1, h2, h4, hp]
    | some fr =>
      simp only [onLine, h1, h2, h4, hp]
      simp [onFrame]
      cases fr.delta <;> simp
  · simp [onLine, h1, h2, h4]

/-- C7: with reasoning display disabled the splicer is bypassed: processing
never changes the span state, every emitted data frame has its reasoning
field dropped and its content equal to the incoming content with `''`
substituted for null/absent (so no marker is ever injected), and the
Scenario D input (reasoning frame, content frame, terminator) produces the
content sequence `['', 'The answer is 4']` with no markers. -/
theorem C7_hide_mode_bypass :
    (∀ (parse : List Char → Option Frame) (o : Bool) (line : List Char),
      (onLine false parse o line).1 = o) ∧
    (∀ (parse : List Char → Option Frame) (o : Bool) (line : List Char)
       (f : Frame) (d : Delta),
      OutRec.dataRec f ∈ (onLine false parse o line).2 →
      f.delta = some d →
      d.reasoning_content = .absent ∧
      ∃ g dg, parse ((trimChars line).drop 6) = some g ∧ g.delta = some dg ∧
        d.content = .str ((jstrToOpt dg.content).getD [])) ∧
    (runLines false parseScen false scenarioLines =
      (false,
       [.dataRec { delta := some { reasoning_content := .absent,
                                   content := .str [] } },
        .dataRec { delta := some { reasoning_content := .absent,
                                   content := .str "The answer is 4".data } },
        .raw rawDone])) := by
  refine ⟨onLine_false_state, ?_, by decide⟩
  intro parse o line f d hmem hd
  by_cases h1 : trimChars line = []
  · simp [onLine, h1] at hmem
  by_cases h2 : trimChars line = doneLine
  · have hne : (doneLine : List Char) ≠ [] := by decide
    simp [onLine, h1, h2, hne] at hmem
  by_cases h4 : dataTag.isPrefixOf (trimChars line)
  · cases hp : parse ((trimChars line).drop 6) with
    | none => simp [onLine, h1, h2, h4, hp] at hmem
    | some fr =>
      simp [onLine, h1, h2, h4, hp] at hmem
      cases hfr : fr.delta with
      | none =>
        rw [onFrame, hfr] at hmem
        simp at hmem
        rw [hmem, hfr] at hd
        exact absurd hd (by simp)
      | some dg =>
        rw [onFrame, hfr] at hmem
        simp at hmem
        rw [hmem] at hd
        simp at hd
        refine ⟨by rw [← hd]; simp [spliceHide], fr, dg, rfl, hfr, ?_⟩
        rw [← hd]
        simp [spliceHide]
  · simp [onLine, h1, h2, h4] at hmem

/-- C7 witness: the first Scenario D frame (reasoning only, display off) is
emitted with reasoning absent and content `''`. -/
theorem C7_hide_mode_bypass_witness :
    ({ reasoning_content := .absent, content := .str [] } : Delta).reasoning_content
        = .absent ∧
    ∃ g dg, parseScen ((trimChars "data: frameA".data).drop 6) = some g ∧
      g.delta = some dg ∧
      ({ reasoning_content := .absent, content := .str [] } : Delta).content
        = .str ((jstrToOpt dg.content).getD []) :=
  C7_hide_mode_bypass.2.1 parseScen false "data: frameA".data
    { delta := some { reasoning_content := .absent, content := .str [] } }
    _ (by decide) rfl

/-! Claim C4 -/

/-- C4 counterexample: the passthrough writes the *trimmed* line plus a
newline, not the original bytes: the malformed line `' boom'` is emitted
as `'boom\n'`, which differs from the original record `' boom\n'` — so
"byte-identical" fails as stated whenever the line carries leading or
trailing whitespace (e.g. the `'\r'` of a CRLF stream). -/
theorem C4_passthrough_trims :
    onLine true parseNone false " boom".data =
      (false, [OutRec.raw ("boom\n".data)]) ∧
    OutRec.raw ("boom\n".data) ≠ OutRec.raw (" boom\n".data) := by
  constructor
  · decide
  · decide

/-- C4 amended: a malformed or non-data line (non-blank, not the
terminator, and either lacking the `'data: '` tag or failing to decode) is
emitted as its whitespace-trimmed text followed by `'\n'`, the state is
unchanged, and processing continues; the emission is byte-identical
exactly when the line carries no surrounding whitespace. -/
theorem C4_passthrough_preserves_trimmed (showR : Bool)
    (parse : List Char → Option Frame) (o : Bool) (line : List Char)
    (h1 : trimChars line ≠ []) (h2 : trimChars line ≠ doneLine)
    (h3 : dataTag.isPrefixOf (trimChars line) = false ∨
          parse ((trimChars line).drop 6) = none) :
    onLine showR parse o line = (o, [.raw (trimChars line ++ ['\n'])]) ∧
    (trimChars line = line →
      onLine showR parse o line = (o, [.raw (line ++ ['\n'])])) := by
  have hmain : onLine showR parse o line = (o, [.raw (trimChars line ++ ['\n'])]) := by
    rcases h3 with h3 | h3
    · simp [onLine, h1, h2, h3]
    · by_cases h4 : dataTag.isPrefixOf (trimChars line)
      · simp [onLine, h1, h2, h4, h3]
      · simp [onLine, h1, h2, h4]
  exact ⟨hmain, fun ht => by rw [hmain, ht]⟩

/-- C4 witness: the undecodable data line `'data: oops'` is emitted
unchanged (it carries no surrounding whitespace) with its terminator
restored. -/
theorem C4_passthrough_preserves_trimmed_witness :
    onLine true parseNone false "data: oops".data =
      (false, [OutRec.raw ("data: oops\n".data)]) :=
  (C4_passthrough_preserves_trimmed true parseNone false "data: oops".data
    (by decide) (by decide) (Or.inr rfl)).2 (by decide)

/-! Claim C5 -/

/-- Whether `pat` occurs as a contiguous subsequence of `l` (substring
containment on code-unit lists). -/
def containsSeq (pat : List Char) : List Char → Bool
  | [] => pat.isPrefixOf []
  | c :: cs => pat.isPrefixOf (c :: cs) || containsSeq pat cs

theorem onFrame_no_reasoning_step (showR : Bool) (f : Frame)
    (h : hasNoReasoning f = true) :
    (onFrame showR false f).1 = false ∧
    outContent (onFrame showR false f).2 = frameContent f := by
  cases hf : f.delta with
  | none => simp [onFrame, hf, outContent, frameContent]
  | some d =>
    rw [hasNoReasoning, hf] at h
    have hr : d.reasoning_content = JStr.absent := by
      simpa using h
    cases showR with
    | false =>
      refine ⟨by simp [onFrame, hf], ?_⟩
      simp [onFrame, hf, outContent, frameContent, spliceHide, jstrToOpt]
    | true =>
      cases hc : d.content with
      | absent =>
        constructor <;>
          simp [onFrame, hf, outContent, frameContent, spliceShow,
                injectBuild, jstrToOpt, hr, hc]
      | nullv =>
        constructor <;>
          simp [onFrame, hf, outContent, frameContent, spliceShow,
                injectBuild, jstrToOpt, hr, hc]
      | str c =>
        by_cases hce : c = []
        · subst hce
          constructor <;>
            simp [onFrame, hf, outContent, frameContent, spliceShow,
                  injectBuild, jstrToOpt, hr, hc]
        · constructor <;>
            simp [onFrame, hf, outContent, frameContent, spliceShow,
                  injectBuild, jstrToOpt, hr, hc, hce]

/-- C5 counterexample: a stream whose single frame carries no reasoning
field but whose *content text* contains the literal opening marker is
passed through, so the opening marker does appear in the output —
refuting "no opening or closing marker token appears anywhere in the
output" as stated. -/
theorem C5_marker_in_content_passes_through :
    hasNoReasoning markerContentFrame = true ∧
    containsSeq markerOpen
      (((runFrames true false [markerContentFrame]).2.map outContent).flatten) = true := by
  constructor
  · decide
  · decide

/-- C5 amended: on a stream with no reasoning field anywhere, the splicer
leaves the span closed and reproduces each input frame's content string
exactly (so the concatenations agree), and injects nothing: any token
absent from every input content string is absent from every output
content string. -/
theorem C5_content_preserved_without_reasoning (showR : Bool)
    (fs : List Frame) (h : ∀ f ∈ fs, hasNoReasoning f = true) :
    (runFrames showR false fs).1 = false ∧
    (runFrames showR false fs).2.map outContent = fs.map frameContent ∧
    ((runFrames showR false fs).2.map outContent).flatten
      = (fs.map frameContent).flatten ∧
    (∀ pat : List Char,
      (∀ f ∈ fs, containsSeq pat (frameContent f) = false) →
      ∀ r ∈ (runFrames showR false fs).2, containsSeq pat (outContent r) = false) := by
  have main : (runFrames showR false fs).1 = false ∧
      (runFrames showR false fs).2.map outContent = fs.map frameContent := by
    induction fs with
    | nil => simp [runFrames]
    | cons f rest ih =>
      have hf := h f (by simp)
      have hstep := onFrame_no_reasoning_step showR f hf
      have ihr := ih (fun g hg => h g (by simp [hg]))
      simp only [runFrames, hstep.1]
      exact ⟨ihr.1, by simp [hstep.2, ihr.2]⟩
  refine ⟨main.1, main.2, by rw [main.2], ?_⟩
  intro pat hpat r hr
  have : outContent r ∈ (runFrames showR false fs).2.map outContent :=
    List.mem_map_of_mem outContent hr
  rw [main.2] at this
  obtain ⟨f, hf, he⟩ := List.mem_map.mp this
  rw [← he]
  exact hpat f hf

/-- C5 witness: a two-frame no-reasoning stream (content `'Hi'`, then
content `' there'`) is reproduced verbatim with the span closed. -/
theorem C5_content_preserved_without_reasoning_witness :
    (runFrames true false
      [{ delta := some { reasoning_content := .absent, content := .str "Hi".data } },
       { delta := some { reasoning_content := .absent, content := .str " there".data } }]).1
      = false ∧
    (runFrames true false
      [{ delta := some { reasoning_content := .absent, content := .str "Hi".data } },
       { delta := some { reasoning_content := .absent, content := .str " there".data } }]).2.map outContent
      = ["Hi".data, " there".data] := by
  have h := C5_content_preserved_without_reasoning true
    [{ delta := some { reasoning_content := .absent, content := .str "Hi".data } },
     { delta := some { reasoning_content := .absent, content := .str " there".data } }]
    (by decide)
  exact ⟨h.1, by rw [h.2.1]; decide⟩

/-! Claim C3 -/

theorem splitNl_ne_nil (cs : List Char) : splitNl cs ≠ [] := by
  cases cs with
  | nil => simp [splitNl]
  | cons c t =>
    by_cases hc : c = '\n'
    · simp [splitNl, hc]
    · simp only [splitNl, hc, if_neg]
      cases splitNl t <;> simp

theorem getLastD_irrel {α : Type} (l : List α) (d e : α) (h : l ≠ []) :
    l.getLastD d = l.getLastD e := by
  cases l with
  | nil => exact absurd rfl h
  | cons a t => rfl

theorem dropLast_cons_ne_nil {α : Type} (x : α) (r : List α) (h : r ≠ []) :
    (x :: r).dropLast = x :: r.dropLast := by
  cases r with
  | nil => exact absurd rfl h
  | cons y t => rfl

theorem getLastD_append_ne_nil {α : Type} (l1 l2 : List α) (d : α)
    (h : l2 ≠ []) : (l1 ++ l2).getLastD d = l2.getLastD d := by
  induction l1 with
  | nil => rfl
  | cons a t ih =>
    have hne : t ++ l2 ≠ [] := by
      intro he
      exact h (List.append_eq_nil.mp he).2
    rw [List.cons_append, List.getLastD_cons, getLastD_irrel _ a d hne, ih]

theorem dropLast_append_ne_nil {α : Type} (l1 l2 : List α) (h : l2 ≠ []) :
    (l1 ++ l2).dropLast = l1 ++ l2.dropLast := by
  induction l1 with
  | nil => rfl
  | cons a t ih =>
    have hne : t ++ l2 ≠ [] := by
      intro he
      exact h (List.append_eq_nil.mp he).2
    rw [List.cons_append, dropLast_cons_ne_nil a (t ++ l2) hne, ih,
        List.cons_append]

theorem splitNl_cons_nl (cs : List Char) :
    splitNl ('\n' :: cs) = [] :: splitNl cs := by
  simp [splitNl]

theorem splitNl_cons_other (c : Char) (cs : List Char) (hc : c ≠ '\n') :
    splitNl (c :: cs) =
      match splitNl cs with
      | [] => [[c]]
      | l :: ls => (c :: l) :: ls := by
  simp [splitNl, hc]

theorem splitNl_append (a b : List Char) :
    splitNl (a ++ b) =
      (splitNl a).dropLast ++ splitNl ((splitNl a).getLastD [] ++ b) := by
  induction a with
  | nil => simp [splitNl]
  | cons c a ih =>
    by_cases hc : c = '\n'
    · subst hc
      have hne := splitNl_ne_nil a
      calc splitNl (('\n' :: a) ++ b)
          = [] :: splitNl (a ++ b) := by
            rw [List.cons_append, splitNl_cons_nl]
        _ = [] :: ((splitNl a).dropLast ++
              splitNl ((splitNl a).getLastD [] ++ b)) := by rw [ih]
        _ = (splitNl ('\n' :: a)).dropLast ++
              splitNl ((splitNl ('\n' :: a)).getLastD [] ++ b) := by
            rw [splitNl_cons_nl, dropLast_cons_ne_nil _ _ hne,
                List.getLastD_cons, List.cons_append]
    · cases hs : splitNl a with
      | nil => exact absurd hs (splitNl_ne_nil a)
      | cons h0 t0 =>
        have hsc : splitNl (c :: a) = (c :: h0) :: t0 := by
          rw [splitNl_cons_other c a hc, hs]
        cases t0 with
        | nil =>
          have hab : splitNl (a ++ b) = splitNl (h0 ++ b) := by
            rw [ih, hs]
            rfl
          calc splitNl ((c :: a) ++ b)
              = splitNl (c :: (a ++ b)) := by rw [List.cons_append]
            _ = (match splitNl (a ++ b) with
                 | [] => [[c]]
                 | l :: ls => (c :: l) :: ls) := splitNl_cons_other c _ hc
            _ = (match splitNl (h0 ++ b) with
                 | [] => [[c]]
                 | l :: ls => (c :: l) :: ls) := by rw [hab]
            _ = splitNl (c :: (h0 ++ b)) := (splitNl_cons_other c _ hc).symm
            _ = splitNl ((c :: h0) ++ b) := by rw [List.cons_append]
            _ = (splitNl (c :: a)).dropLast ++
                  splitNl ((splitNl (c :: a)).getLastD [] ++ b) := by
                rw [hsc]
                rfl
        | cons u us =>
          have ht0 : (u :: us : List (List Char)) ≠ [] := by simp
          have hrest : splitNl (a ++ b) =
              h0 :: ((u :: us).dropLast ++
                splitNl ((u :: us).getLastD [] ++ b)) := by
            rw [ih, hs, dropLast_cons_ne_nil h0 (u :: us) ht0,
                List.getLastD_cons, getLastD_irrel (u :: us) h0 [] ht0,
                List.cons_append]
          calc splitNl ((c :: a) ++ b)
              = splitNl (c :: (a ++ b)) := by rw [List.cons_append]
            _ = (match splitNl (a ++ b) with
                 | [] => [[c]]
                 | l :: ls => (c :: l) :: ls) := splitNl_cons_other c _ hc
            _ = (c :: h0) :: ((u :: us).dropLast ++
                  splitNl ((u :: us).getLastD [] ++ b)) := by rw [hrest]
            _ = (splitNl (c :: a)).dropLast ++
                  splitNl ((splitNl (c :: a)).getLastD [] ++ b) := by
                conv_rhs =>
                  rw [hsc, dropLast_cons_ne_nil (c :: h0) (u :: us) ht0,
                      List.getLastD_cons]
                rw [getLastD_irrel (u :: us) (c :: h0) [] ht0,
                    List.cons_append]

theorem splitNl_no_newline (cs : List Char) (h : '\n' ∉ cs) :
    splitNl cs = [cs] := by
  induction cs with
  | nil => rfl
  | cons c t ih =>
    have hc : c ≠ '\n' := fun he => h (he ▸ List.mem_cons_self c t)
    have ht : '\n' ∉ t := fun hm => h (List.mem_cons_of_mem c hm)
    simp [splitNl, hc, ih ht]

theorem mem_splitNl_no_newline (cs : List Char) :
    ∀ l ∈ splitNl cs, '\n' ∉ l := by
  induction cs with
  | nil =>
    intro l hl
    simp [splitNl] at hl
    simp [hl]
  | cons c t ih =>
    intro l hl
    by_cases hc : c = '\n'
    · subst hc
      simp only [splitNl, if_pos rfl] at hl
      rcases List.mem_cons.mp hl with h | h
      · simp [h]
      · exact ih l h
    · simp only [splitNl, if_neg hc] at hl
      cases hs : splitNl t with
      | nil => exact absurd hs (splitNl_ne_nil t)
      | cons h0 t0 =>
        rw [hs] at hl
        rcases List.mem_cons.mp hl with h | h
        · subst h
          intro hm
          rcases List.mem_cons.mp hm with h | h
          · exact hc h.symm
          · exact ih h0 (hs ▸ List.mem_cons_self h0 t0) h
        · exact ih l (hs ▸ List.mem_cons_of_mem h0 h)

theorem runLines_append (showR : Bool) (parse : List Char → Option Frame)
    (o : Bool) (ls ms : List (List Char)) :
    runLines showR parse o (ls ++ ms) =
      ((runLines showR parse (runLines showR parse o ls).1 ms).1,
       (runLines showR parse o ls).2 ++
         (runLines showR parse (runLines showR parse o ls).1 ms).2) := by
  induction ls generalizing o with
  | nil => simp [runLines]
  | cons l t ih => simp [runLines, ih]

theorem onChunk_append (showR : Bool) (parse : List Char → Option Frame)
    (st : RwState) (a b : List Char) :
    onChunk showR parse st (a ++ b) =
      ((onChunk showR parse (onChunk showR parse st a).1 b).1,
       (onChunk showR parse st a).2 ++
         (onChunk showR parse (onChunk showR parse st a).1 b).2) := by
  have hassoc : st.buffer ++ (a ++ b) = (st.buffer ++ a) ++ b :=
    (List.append_assoc st.buffer a b).symm
  have hsplit := splitNl_append (st.buffer ++ a) b
  have hq := splitNl_ne_nil ((splitNl (st.buffer ++ a)).getLastD [] ++ b)
  simp only [onChunk, hassoc, hsplit]
  rw [dropLast_append_ne_nil _ _ hq, getLastD_append_ne_nil _ _ _ hq,
      runLines_append]

theorem runChunks_flatten (showR : Bool) (parse : List Char → Option Frame)
    (cs : List (List Char)) :
    ∀ st : RwState, '\n' ∉ st.buffer →
      runChunks showR parse st cs = onChunk showR parse st cs.flatten := by
  induction cs with
  | nil =>
    intro st h
    simp [runChunks, onChunk, splitNl_no_newline st.buffer (by simpa using h),
          runLines]
  | cons c t ih =>
    intro st h
    have hb : '\n' ∉ (onChunk showR parse st c).1.buffer := by
      simp only [onChunk]
      exact mem_splitNl_no_newline (st.buffer ++ c) _
        (getLastD_mem _ _ (splitNl_ne_nil _))
    simp only [runChunks, List.flatten_cons]
    rw [ih _ hb, onChunk_append]

/-- C3: the output of the rewriter depends only on the concatenation of
the delivered chunks, not on where the chunk boundaries fall: the framer
buffers the trailing partial line and replays it with the next chunk, so
any two partitions of the same stream produce identical output records
and identical final state. -/
theorem C3_chunk_boundary_independence (showR : Bool)
    (parse : List Char → Option Frame) (cs1 cs2 : List (List Char))
    (h : cs1.flatten = cs2.flatten) :
    runChunks showR parse initState cs1 = runChunks showR parse initState cs2 := by
  rw [runChunks_flatten showR parse cs1 initState (by simp [initState]),
      runChunks_flatten showR parse cs2 initState (by simp [initState]), h]

/-- C3 witness: delivering `'data: oops\nrest'` one character at a time
produces the same state and records as delivering it whole. -/
theorem C3_chunk_boundary_independence_witness :
    runChunks true parseNone initState
        (["d".data, "ata: o".data, "ops\nre".data, "st".data]) =
      runChunks true parseNone initState ["data: oops\nrest".data] :=
  C3_chunk_boundary_independence true parseNone _ _ (by decide)

theorem runByteChunks_eq_runChunks (showR : Bool)
    (parse : List Char → Option Frame) (st : RwState)
    (bcs : List (List Nat)) :
    runByteChunks showR parse st bcs =
      runChunks showR parse st (bcs.map utf8Decode) := by
  induction bcs generalizing st with
  | nil => rfl
  | cons c cs ih => simp [runByteChunks, runChunks, onByteChunk, ih]

/-- C3 counterexample: at the byte granularity the claim names ("one byte
at a time, all at once, or anything between"), chunk boundaries are not
transparent: the same byte stream `'x' E2 82 AC '
'` (the line `x€`)
delivered split in the middle of the three-byte character decodes each
chunk independently (`chunk.toString()`, server.js:148), so the split
delivery emits `x` followed by three U+FFFD replacement characters while
the whole delivery emits `x€` — different output records. -/
theorem C3_byte_split_changes_output :
    ([[0x78, 0xE2], [0x82, 0xAC, 0x0A]] : List (List Nat)).flatten =
      ([[0x78, 0xE2, 0x82, 0xAC, 0x0A]] : List (List Nat)).flatten ∧
    runByteChunks true parseNone initState [[0x78, 0xE2], [0x82, 0xAC, 0x0A]] =
      (initState, [OutRec.raw ['x', '\uFFFD', '\uFFFD', '\uFFFD', '\n']]) ∧
    runByteChunks true parseNone initState [[0x78, 0xE2, 0x82, 0xAC, 0x0A]] =
      (initState, [OutRec.raw ['x', '\u20AC', '\n']]) ∧
    runByteChunks true parseNone initState [[0x78, 0xE2], [0x82, 0xAC, 0x0A]] ≠
      runByteChunks true parseNone initState [[0x78, 0xE2, 0x82, 0xAC, 0x0A]] := by
  refine ⟨by decide, by decide, by decide, by decide⟩

/-- C3 amended: chunk-boundary independence holds exactly up to the
per-chunk decode: any two byte-chunk partitions whose independently
decoded chunks concatenate to the same character sequence — in
particular any two partitions that never split a multi-byte UTF-8
character — produce identical output records and final state, because
the framer buffers the trailing partial line and replays it with the
next chunk. -/
theorem C3_decode_aligned_chunk_independence (showR : Bool)
    (parse : List Char → Option Frame) (bcs1 bcs2 : List (List Nat))
    (h : (bcs1.map utf8Decode).flatten = (bcs2.map utf8Decode).flatten) :
    runByteChunks showR parse initState bcs1 =
      runByteChunks showR parse initState bcs2 := by
  rw [runByteChunks_eq_runChunks, runByteChunks_eq_runChunks,
      runChunks_flatten showR parse (bcs1.map utf8Decode) initState
        (by simp [initState]),
      runChunks_flatten showR parse (bcs2.map utf8Decode) initState
        (by simp [initState]),
      h]

/-- C3 amended witness: the `x€` line delivered as byte chunks split at a
character boundary produces the same state and records as delivered
whole. -/
theorem C3_decode_aligned_chunk_independence_witness :
    runByteChunks true parseNone initState
        [[0x78], [0xE2, 0x82, 0xAC], [0x0A]] =
      runByteChunks true parseNone initState
        [[0x78, 0xE2, 0x82, 0xAC, 0x0A]] :=
  C3_decode_aligned_chunk_independence true parseNone _ _ (by decide)

/-! Claim C1 -/

theorem onLine_done_true_state (parse : List Char → Option Frame) (o : Bool)
    (line : List Char) (hd : trimChars line = doneLine) :
    (onLine true parse o line).1 = false := by
  have hne : (doneLine : List Char) ≠ [] := by decide
  cases o <;> simp [onLine, hd, hne]

theorem onLine_done_open (parse : List Char → Option Frame)
    (line : List Char) (hd : trimChars line = doneLine) :
    onLine true parse true line =
      (false, [.dataRec (buildDeltaChunk markerClose), .raw rawDone]) := by
  have hne : (doneLine : List Char) ≠ [] := by decide
  simp [onLine, hd, hne]

theorem endState_cons (o x : Bool) (tr : List Bool) :
    endState o (x :: tr) = endState x tr := by
  rw [endState, endState, List.getLastD_cons]

theorem runTrace_append (showR : Bool) (parse : List Char → Option Frame)
    (o : Bool) (ls ms : List (List Char)) :
    runTrace showR parse o (ls ++ ms) =
      runTrace showR parse o ls ++
        runTrace showR parse (endState o (runTrace showR parse o ls)) ms := by
  induction ls generalizing o with
  | nil => simp [runTrace, endState]
  | cons l t ih =>
    simp only [List.cons_append, runTrace, List.append_eq]
    rw [ih, endState_cons]

theorem runTrace_false_endState (parse : List Char → Option Frame)
    (o : Bool) (ls : List (List Char)) :
    endState o (runTrace false parse o ls) = o := by
  induction ls generalizing o with
  | nil => rfl
  | cons l t ih =>
    simp only [runTrace, onLine_false_state, endState, List.getLastD_cons]
    exact ih o

theorem endState_concat (o x : Bool) (tr : List Bool) :
    endState o (tr ++ [x]) = x := by
  rw [endState, getLastD_append_ne_nil tr [x] o (by simp)]
  rfl

theorem countFT_balance (tr : List Bool) : ∀ o : Bool,
    countFT o tr + (cond o 1 0) = countTF o tr + (cond (endState o tr) 1 0) := by
  induction tr with
  | nil => intro o; rfl
  | cons b bs ih =>
    intro o
    have h := ih b
    rw [endState_cons]
    cases o <;> cases b <;> simp [countFT, countTF] at h ⊢ <;> omega

theorem injectBuild_open (rc cc : Option (List Char))
    (h : (injectBuild false rc cc).2 = true) :
    ∃ r, rc = some r ∧ r ≠ [] ∧
      (injectBuild false rc cc).1 = markerOpen ++ r := by
  cases rc with
  | none =>
    exfalso
    cases cc with
    | none => simp [injectBuild] at h
    | some c => by_cases hce : c = [] <;> simp [injectBuild, hce] at h
  | some r =>
    by_cases hr : r = []
    · exfalso
      subst hr
      cases cc with
      | none => simp [injectBuild] at h
      | some c => by_cases hce : c = [] <;> simp [injectBuild, hce] at h
    · cases cc with
      | none => exact ⟨r, rfl, hr, by simp [injectBuild, hr]⟩
      | some c =>
        by_cases hce : c = []
        · exact ⟨r, rfl, hr, by simp [injectBuild, hr, hce]⟩
        · exfalso
          simp [injectBuild, hr, hce] at h

theorem spliceShow_open (d : Delta) (h : (spliceShow false d).1 = true) :
    ∃ r, (spliceShow false d).2.content = JStr.str (markerOpen ++ r) := by
  have h2 : (injectBuild false (jstrToOpt d.reasoning_content)
      (jstrToOpt d.content)).2 = true := by
    simpa [spliceShow] using h
  obtain ⟨r, hrc, hr, hinj⟩ := injectBuild_open _ _ h2
  have hne : markerOpen ++ r ≠ [] := by simp [markerOpen]
  exact ⟨r, by simp [spliceShow, hinj, hne]⟩

theorem injectBuild_close (rc cc : Option (List Char))
    (h : (injectBuild true rc cc).2 = false) :
    ∃ p t, (injectBuild true rc cc).1 = p ++ markerClose ++ t := by
  have hnl : "\n</think>\n\n".data = '\n' :: markerClose := by decide
  cases cc with
  | none =>
    exfalso
    cases rc with
    | none => simp [injectBuild] at h
    | some r => by_cases hr : r = [] <;> simp [injectBuild, hr] at h
  | some c =>
    by_cases hce : c = []
    · exfalso
      cases rc with
      | none => simp [injectBuild, hce] at h
      | some r => by_cases hr : r = [] <;> simp [injectBuild, hr, hce] at h
    · cases rc with
      | none =>
        refine ⟨['\n'], c, ?_⟩
        simp [injectBuild, hce, hnl, markerClose]
      | some r =>
        by_cases hr : r = []
        · refine ⟨['\n'], c, ?_⟩
          simp [injectBuild, hr, hce, hnl, markerClose]
        · refine ⟨r ++ ['\n'], c, ?_⟩
          simp [injectBuild, hr, hce, hnl, markerClose, List.append_assoc]

theorem spliceShow_close (d : Delta) (h : (spliceShow true d).1 = false) :
    ∃ p t, (spliceShow true d).2.content = JStr.str (p ++ markerClose ++ t) := by
  have h2 : (injectBuild true (jstrToOpt d.reasoning_content)
      (jstrToOpt d.content)).2 = false := by
    simpa [spliceShow] using h
  obtain ⟨p, t, hinj⟩ := injectBuild_close _ _ h2
  have hne : p ++ markerClose ++ t ≠ [] := by simp [markerClose]
  refine ⟨p, t, ?_⟩
  simp only [spliceShow]
  rw [hinj, if_pos hne]

theorem onLine_opens (parse : List Char → Option Frame) (line : List Char)
    (h : (onLine true parse false line).1 = true) :
    ∃ f d r, (onLine true parse false line).2 = [OutRec.dataRec f] ∧
      f.delta = some d ∧ d.content = JStr.str (markerOpen ++ r) := by
  by_cases h1 : trimChars line = []
  · simp [onLine, h1] at h
  by_cases h2 : trimChars line = doneLine
  · have hne : (doneLine : List Char) ≠ [] := by decide
    simp [onLine, h1, h2, hne] at h
  by_cases h4 : dataTag.isPrefixOf (trimChars line)
  · cases hp : parse ((trimChars line).drop 6) with
    | none => simp [onLine, h1, h2, h4, hp] at h
    | some fr =>
      cases hfr : fr.delta with
      | none => simp [onLine, onFrame, h1, h2, h4, hp, hfr] at h
      | some dd =>
        have houts : onLine true parse false line =
            ((spliceShow false dd).1,
             [OutRec.dataRec { delta := some (spliceShow false dd).2 }]) := by
          simp [onLine, onFrame, h1, h2, h4, hp, hfr]
        have hst : (spliceShow false dd).1 = true := by
          rw [houts] at h
          exact h
        obtain ⟨r, hc⟩ := spliceShow_open dd hst
        exact ⟨{ delta := some (spliceShow false dd).2 },
               (spliceShow false dd).2, r, by rw [houts], rfl, hc⟩
  · simp [onLine, h1, h2, h4] at h

theorem onLine_closes (parse : List Char → Option Frame) (line : List Char)
    (h : (onLine true parse true line).1 = false) :
    ∃ f d p t, OutRec.dataRec f ∈ (onLine true parse true line).2 ∧
      f.delta = some d ∧ d.content = JStr.str (p ++ markerClose ++ t) := by
  by_cases h1 : trimChars line = []
  · simp [onLine, h1] at h
  by_cases h2 : trimChars line = doneLine
  · refine ⟨buildDeltaChunk markerClose, _, [], [], ?_, rfl, by simp⟩
    rw [onLine_done_open parse line h2]
    simp
  by_cases h4 : dataTag.isPrefixOf (trimChars line)
  · cases hp : parse ((trimChars line).drop 6) with
    | none => simp [onLine, h1, h2, h4, hp] at h
    | some fr =>
      cases hfr : fr.delta with
      | none => simp [onLine, onFrame, h1, h2, h4, hp, hfr] at h
      | some dd =>
        have houts : onLine true parse true line =
            ((spliceShow true dd).1,
             [OutRec.dataRec { delta := some (spliceShow true dd).2 }]) := by
          simp [onLine, onFrame, h1, h2, h4, hp, hfr]
        have hst : (spliceShow true dd).1 = false := by
          rw [houts] at h
          exact h
        obtain ⟨p, t, hc⟩ := spliceShow_close dd hst
        refine ⟨{ delta := some (spliceShow true dd).2 },
                (spliceShow true dd).2, p, t, ?_, rfl, hc⟩
        rw [houts]
        exact List.mem_singleton.mpr rfl
  · simp [onLine, h1, h2, h4] at h

/-- C1: on receipt of the terminator with the span open, the rewriter
emits exactly one synthesized data record whose delta content is exactly
the closing marker, followed by the terminator, and closes the span
(part 1); for every stream ending in the terminator the final state is
closed and the number of closed→open transitions equals the number of
open→closed transitions, so every emitted opening marker has a matching
close no later than the terminator (part 2); and the transitions really
are the marker emissions: a closed→open step emits exactly one data
record whose content starts with the opening marker (part 3), and an
open→closed step emits a data record whose content contains the closing
marker (part 4). -/
theorem C1_terminator_closes_span :
    (∀ (parse : List Char → Option Frame) (line : List Char),
      trimChars line = doneLine →
      onLine true parse true line =
        (false, [.dataRec (buildDeltaChunk markerClose), .raw rawDone])) ∧
    (∀ (showR : Bool) (parse : List Char → Option Frame)
       (lines : List (List Char)) (line : List Char),
      trimChars line = doneLine →
      endState false (runTrace showR parse false (lines ++ [line])) = false ∧
      countFT false (runTrace showR parse false (lines ++ [line])) =
        countTF false (runTrace showR parse false (lines ++ [line]))) ∧
    (∀ (parse : List Char → Option Frame) (line : List Char),
      (onLine true parse false line).1 = true →
      ∃ f d r, (onLine true parse false line).2 = [OutRec.dataRec f] ∧
        f.delta = some d ∧ d.content = JStr.str (markerOpen ++ r)) ∧
    (∀ (parse : List Char → Option Frame) (line : List Char),
      (onLine true parse true line).1 = false →
      ∃ f d p t, OutRec.dataRec f ∈ (onLine true parse true line).2 ∧
        f.delta = some d ∧ d.content = JStr.str (p ++ markerClose ++ t)) := by
  refine ⟨fun parse line hd => onLine_done_open parse line hd, ?_,
          fun parse line h => onLine_opens parse line h,
          fun parse line h => onLine_closes parse line h⟩
  intro showR parse lines line hdone
  have hsplit : runTrace showR parse false (lines ++ [line]) =
      runTrace showR parse false lines ++
        [(onLine showR parse
            (endState false (runTrace showR parse false lines)) line).1] := by
    rw [runTrace_append]
    rfl
  have hfin : (onLine showR parse
      (endState false (runTrace showR parse false lines)) line).1 = false := by
    cases showR with
    | true => exact onLine_done_true_state parse _ line hdone
    | false =>
      rw [onLine_false_state]
      exact runTrace_false_endState parse false lines
  have hend : endState false (runTrace showR parse false (lines ++ [line]))
      = false := by
    rw [hsplit, endState_concat]
    exact hfin
  refine ⟨hend, ?_⟩
  have hb := countFT_balance (runTrace showR parse false (lines ++ [line])) false
  rw [hend] at hb
  simpa using hb

/-- C1 witness: with the span open, the literal terminator line triggers
the synthesized closing record then the terminator; and a concrete
two-line stream ending in the terminator finishes closed with balanced
transitions. -/
theorem C1_terminator_closes_span_witness :
    onLine true parseNone true doneLine =
      (false, [.dataRec (buildDeltaChunk markerClose), .raw rawDone]) ∧
    endState false
      (runTrace true parseNone false (["data: x".data] ++ [doneLine])) = false ∧
    countFT false
      (runTrace true parseNone false (["data: x".data] ++ [doneLine])) =
      countTF false
        (runTrace true parseNone false (["data: x".data] ++ [doneLine])) :=
  ⟨C1_terminator_closes_span.1 parseNone doneLine (by decide),
   (C1_terminator_closes_span.2.1 true parseNone ["data: x".data] doneLine
      (by decide)).1,
   (C1_terminator_closes_span.2.1 true parseNone ["data: x".data] doneLine
      (by decide)).2⟩

/-- C9 witness: a caught request error with upstream status 502 and no
prior bytes yields exactly the JSON error body with code 502. -/
theorem C9_error_discipline_witness :
    runRes false [REvent.requestError (some 502) "bad gateway".data] =
      (true, [ROut.jsonError { message := "bad gateway".data,
                               errType := "proxy_error".data,
                               code := statusOr500 (some 502) }]) :=
  C9_error_discipline.2 (some 502) "bad gateway".data
